import Mathlib

/-!
Shallow embedding of the CollabLab backend (`src/main.py`, `src/schemas.py`).

The MongoDB collections (`users`, `projects`, `savedproject`,
`collaborationrequest`) are modelled as Lean lists of records; `find_one`
becomes `List.find?` (first match in natural/insertion order), `update_one`
updates the first matching record, `delete_one` removes the first matching
record, and `delete_many` filters.  Timestamps (`datetime.now(...)`) and
generated `ObjectId`s are passed in as explicit arguments, mirroring their
nondeterministic generation.  `bson.ObjectId(s)` raises `InvalidId`
(a `ValueError`) on strings that are not 24 hex characters; this is modelled
by `isValidOid` together with an `Err.serverError` result where the Python
exception would escape the handler (FastAPI turns it into a 500 response).

JWT (python-jose, HS256): a token is modelled as a string of four
dot-separated fields — subject claim, email claim, issued-at claim, and a
signature that is valid exactly when it was produced with the verifier's
key.  The claim payloads are escaped so that they never contain `.` or a
space, mirroring base64url encoding of real JWTs (base64url output never
contains `.` or spaces either, which is what makes `"Bearer <token>"` split
into exactly two words).  The issued-at claim is carried as its decimal
string; `get_current_user` never reads it (the code checks no expiry).

bcrypt via passlib is external to the repository; `hash_password` models it
as an injective salted function whose output is never the plaintext, with
the random salt passed explicitly.
-/

deriving instance DecidableEq for Except

namespace CollabLab

/-! ## Characters, hex object ids, lowercasing, splitting -/

def isHexDigitC (c : Char) : Bool :=
  c.isDigit || ('a' ≤ c && c ≤ 'f') || ('A' ≤ c && c ≤ 'F')

/-- Validity of a string as a `bson.ObjectId`: exactly 24 hex characters.
`ObjectId(s)` raises `InvalidId` (a subclass of `ValueError`) otherwise. -/
def isValidOid (s : String) : Bool :=
  s.data.length == 24 && s.data.all isHexDigitC

/-- Python's `str.lower()` on the character list of a string. -/
def lowerL (l : List Char) : List Char := l.map Char.toLower

/-- Helper for `splitOnC`: prepend a character to the first chunk. -/
def consHead (c : Char) : List (List Char) → List (List Char)
  | [] => [[c]]
  | p :: ps => (c :: p) :: ps

/-- Python's `str.split(sep)` for a single-character separator (keeps empty
chunks, exactly like `"a  b".split(" ") == ["a", "", "b"]`). -/
def splitOnC (sep : Char) : List Char → List (List Char)
  | [] => [[]]
  | c :: cs => if c = sep then [] :: splitOnC sep cs else consHead c (splitOnC sep cs)

/-! ## The JWT model -/

/-- Escaping of one claim character so that serialized claims contain no `.`
and no space (stand-in for base64url encoding). -/
def escC (c : Char) : List Char :=
  if c = '%' then ['%', '%']
  else if c = '.' then ['%', 'd']
  else if c = ' ' then ['%', 's']
  else [c]

def esc : List Char → List Char
  | [] => []
  | c :: cs => escC c ++ esc cs

def unescPair (d : Char) : Char :=
  if d = 'd' then '.' else if d = 's' then ' ' else d

def unesc : List Char → List Char
  | [] => []
  | [c] => [c]
  | c :: d :: cs => if c = '%' then unescPair d :: unesc cs else c :: unesc (d :: cs)

/-- Serialization of an optional claim: `n` marks an absent claim, `j` a
present one. -/
def sealOpt : Option String → List Char
  | none => ['n']
  | some s => 'j' :: esc s.data

def unsealOpt : List Char → Option (Option String)
  | ['n'] => some none
  | 'j' :: rest => some (some (String.mk (unesc rest)))
  | _ => none

/-- Decoded JWT claims as read by `jwt.decode`: the `sub` and `email`
claims (absent claims decode to `none`) and the raw issued-at field, which
the backend never reads. -/
structure JwtClaims where
  sub : Option String
  email : Option String
  iatRaw : String
deriving Repr, DecidableEq

/-- Model of `jwt.encode(payload, key, HS256)` for a payload
`{sub, email, iat}`: three escaped claim fields plus a signature field that
only the holder of `key` can produce. -/
def encodeJwt (key : String) (sub email : Option String) (iat : Int) : String :=
  String.mk (sealOpt sub ++ '.' :: (sealOpt email ++ '.' :: (esc (toString iat).data ++ '.' :: esc key.data)))

/-- Model of `jwt.decode(token, key, [HS256])`: `none` models `JWTError`
(malformed token or signature made with a different key). -/
def decodeJwt (key : String) (tok : String) : Option JwtClaims :=
  match splitOnC '.' tok.data with
  | [s, e, i, k] =>
    if k = esc key.data then
      match unsealOpt s, unsealOpt e with
      | some sub, some em => some ⟨sub, em, String.mk (unesc i)⟩
      | _, _ => none
    else none
  | _ => none

/-- `JWT_SECRET = os.getenv("JWT_SECRET", "dev-secret-change-me")`. -/
def JWT_SECRET : String := "dev-secret-change-me"

/-- `create_token(user_id, email)` (main.py line 41): payload
`{"sub": user_id, "email": email, "iat": now}` signed with `JWT_SECRET`. -/
def create_token (user_id email : String) (iat : Int) : String :=
  encodeJwt JWT_SECRET (some user_id) (some email) iat

/-! ## Password hashing (passlib bcrypt, external library) -/

/-- Model of `pwd_context.hash` (bcrypt): a salted injective digest.  The
random salt is an explicit argument; the output is tagged so that it is
never equal to the plaintext. -/
def hash_password (salt : Nat) (password : String) : String :=
  "$2b$12$" ++ toString salt ++ "$" ++ password

/-! ## Stored records and the database state -/

structure UserRec where
  id : String
  name : String
  email : String
  password_hash : String
  provider : String
  created_at : Int
deriving Repr, DecidableEq

structure ProjectRec where
  id : String
  owner_id : String
  title : String
  description : String
  skills_required : List String
  expected_contribution : Option String
  duration : Option String
  tags : List String
  visibility : String
  created_at : Int
  updated_at : Option Int
deriving Repr, DecidableEq

structure SavedRec where
  user_id : String
  project_id : String
  created_at : Int
deriving Repr, DecidableEq

structure CollabRec where
  id : String
  project_id : String
  applicant_id : String
  message : String
  portfolio_url : String
  document_path : String
  status : String
  created_at : Int
deriving Repr, DecidableEq

/-- The four MongoDB collections used by `main.py`. -/
structure DB where
  users : List UserRec
  projects : List ProjectRec
  saved : List SavedRec
  collabs : List CollabRec
deriving Repr, DecidableEq

/-- The private upload directory: a map from paths to file bytes, newest
write first (`open(path, "wb")` truncates, so a later write shadows an
earlier one; reads use `List.lookup`). -/
abbrev FS := List (String × List Nat)

/-- HTTP-level failure outcomes.  `serverError` models an exception that
escapes the handler (FastAPI responds 500). -/
inductive Err where
  | unauth (msg : String)
  | forbidden (msg : String)
  | notFound (msg : String)
  | invalidArg (msg : String)
  | serverError (msg : String)
deriving Repr, DecidableEq

/-- The `AuthUser` model returned by the guard. -/
structure AuthUser where
  id : String
  email : String
  name : String
deriving Repr, DecidableEq

/-! ## List helpers mirroring Mongo single-document writes -/

/-- `update_one`: apply `f` to the first record satisfying `p`. -/
def updateFirst (p : α → Bool) (f : α → α) : List α → List α
  | [] => []
  | x :: xs => if p x then f x :: xs else x :: updateFirst p f xs

/-- `delete_one`: remove the first record satisfying `p`. -/
def removeFirst (p : α → Bool) : List α → List α
  | [] => []
  | x :: xs => if p x then xs else x :: removeFirst p xs

/-! ## The authorization guard (main.py lines 57-74) -/

/-- `get_current_user`: header parsing, token verification, and a fresh
user lookup.  Parsing and verification failures raise
`HTTPException(401)`, as does a missing user.  The `ObjectId(user_id)`
conversion on a malformed (truthy) subject raises `bson.errors.InvalidId`,
which subclasses `BSONError`, not `ValueError` — so it escapes the
`except (JWTError, ValueError)` clause and the request fails with a 500
(`serverError`), not a 401. -/
def get_current_user (db : DB) (authorization : Option String) : Except Err AuthUser :=
  match authorization with
  | none => .error (.unauth "Missing Authorization header")
  | some auth =>
    match splitOnC ' ' auth.data with
    | [scheme, token] =>
      if lowerL scheme = "bearer".data then
        match decodeJwt JWT_SECRET (String.mk token) with
        | none => .error (.unauth "Invalid or expired token")
        | some claims =>
          match claims.sub, claims.email with
          | some uid, some em =>
            if uid = "" || em = "" then .error (.unauth "Invalid or expired token")
            else if isValidOid uid then
              match db.users.find? (fun u => u.id == uid) with
              | none => .error (.unauth "User not found")
              | some u => .ok { id := u.id, email := u.email, name := u.name }
            else .error (.serverError "InvalidId")
          | _, _ => .error (.unauth "Invalid or expired token")
      else .error (.unauth "Invalid or expired token")
    | _ => .error (.unauth "Invalid or expired token")

/-! ## Auth endpoints -/

/-- Request body of `POST /auth/signup`. -/
structure SignUpRequest where
  name : String
  email : String
  password : String
deriving Repr, DecidableEq

/-- `signup` (main.py lines 84-98).  The generated `ObjectId` of the new
user and the bcrypt salt are explicit arguments; the returned string is the
`access_token` of the `TokenResponse`.  The endpoint returns the resulting
database state alongside the response so that the modification (or its
absence) is part of the result. -/
def signup (db : DB) (freshId : String) (salt : Nat) (now : Int)
    (payload : SignUpRequest) : DB × Except Err String :=
  match db.users.find? (fun u => u.email == payload.email) with
  | some _ => (db, .error (.invalidArg "Email already registered"))
  | none =>
    let user_doc : UserRec :=
      { id := freshId
        name := payload.name
        email := payload.email
        password_hash := hash_password salt payload.password
        provider := "credentials"
        created_at := now }
    ({ db with users := db.users ++ [user_doc] },
      .ok (create_token freshId payload.email now))

/-! ## Project models and endpoints -/

/-- Request body `ProjectIn` (main.py lines 116-123). -/
structure ProjectIn where
  title : String
  description : String
  skills_required : List String
  expected_contribution : Option String
  duration : Option String
  tags : List String
  visibility : String
deriving Repr, DecidableEq

/-- Response model `ProjectOut` (main.py lines 126-129). -/
structure ProjectOut where
  id : String
  owner_id : String
  created_at : Int
  title : String
  description : String
  skills_required : List String
  expected_contribution : Option String
  duration : Option String
  tags : List String
  visibility : String
deriving Repr, DecidableEq

/-- The `ProjectOut(...)` construction the handlers perform on a stored
project document. -/
def toProjectOut (p : ProjectRec) : ProjectOut :=
  { id := p.id
    owner_id := p.owner_id
    created_at := p.created_at
    title := p.title
    description := p.description
    skills_required := p.skills_required
    expected_contribution := p.expected_contribution
    duration := p.duration
    tags := p.tags
    visibility := p.visibility }

/-- Model of Python `re.search(pat, text, re.IGNORECASE)` matching at the
start of `text`, for the fragment of patterns whose characters are literals
or the `.` wildcard (the only regex constructs this development reasons
about; see `modelledPattern`).  `'.'` matches any single character; other
characters match up to case. -/
def reMatchHere : List Char → List Char → Bool
  | [], _ => true
  | _ :: _, [] => false
  | p :: ps, c :: cs => (p = '.' || p.toLower = c.toLower) && reMatchHere ps cs

/-- Search anywhere in the text (what `$regex` / `re.search` does), for the
`modelledPattern` fragment.  Patterns with other metacharacters (`*`, `+`,
`(`, …) behave differently under the real `$regex` — an invalid pattern
even fails the whole request — so theorems about the text filter restrict
the query to the fragment. -/
def reSearch (pat : List Char) : List Char → Bool
  | [] => reMatchHere pat []
  | c :: cs => reMatchHere pat (c :: cs) || reSearch pat cs

/-- The regular-expression metacharacters of Python `re` / PCRE. -/
def pyRegexMeta (c : Char) : Bool :=
  c = '.' || c = '^' || c = '$' || c = '*' || c = '+' || c = '?' ||
    c = '\x7b' || c = '\x7d' || c = '[' || c = ']' || c = '\\' || c = '|' ||
    c = '(' || c = ')'

/-- The pattern fragment `reSearch` models faithfully: every character is
either a non-metacharacter literal or the `.` wildcard. -/
def modelledPattern (s : String) : Bool :=
  s.data.all (fun c => !(pyRegexMeta c) || c = '.')

/-- The `$or` clause of `list_projects` for a (truthy) text query `q`:
case-insensitive regex search against title, description, and each tag. -/
def projMatchesQ (q : String) (p : ProjectRec) : Bool :=
  reSearch q.data p.title.data || reSearch q.data p.description.data ||
    p.tags.any (fun t => reSearch q.data t.data)

/-- The text-query filter; `if q:` treats an absent or empty `q` as no
filter. -/
def qFilter (q : Option String) (p : ProjectRec) : Bool :=
  match q with
  | none => true
  | some s => if s = "" then true else projMatchesQ s p

/-- The tag filter `{"tags": {"$in": [tag]}}`; `$in` on an array field
matches when some element equals `tag` exactly.  `if tag:` treats an absent
or empty tag as no filter. -/
def tagFilter (tag : Option String) (p : ProjectRec) : Bool :=
  match tag with
  | none => true
  | some t => if t = "" then true else p.tags.contains t

/-- `sort("created_at", -1)`: newest first. -/
def newestFirst (a b : ProjectRec) : Prop := b.created_at ≤ a.created_at

instance : DecidableRel newestFirst :=
  fun a b => inferInstanceAs (Decidable (b.created_at ≤ a.created_at))

instance : IsTotal ProjectRec newestFirst :=
  ⟨fun a b => (Int.le_total b.created_at a.created_at)⟩

instance : IsTrans ProjectRec newestFirst :=
  ⟨fun _ _ _ hab hbc => le_trans hbc hab⟩

/-- `list_projects` (main.py lines 144-172): only public projects, the
optional `$or` regex filter and the optional exact tag filter are AND-ed,
and the result is sorted newest-created first. -/
def list_projects (db : DB) (q tag : Option String) : List ProjectOut :=
  let matched := db.projects.filter
    (fun p => p.visibility == "public" && qFilter q p && tagFilter tag p)
  (matched.insertionSort newestFirst).map toProjectOut

/-- The `$set` document of `update_project` (main.py line 201): every
`ProjectIn` field is overwritten and `updated_at` is stamped. -/
def applyProjectSet (payload : ProjectIn) (now : Int) (p : ProjectRec) : ProjectRec :=
  { p with
    title := payload.title
    description := payload.description
    skills_required := payload.skills_required
    expected_contribution := payload.expected_contribution
    duration := payload.duration
    tags := payload.tags
    visibility := payload.visibility
    updated_at := some now }

/-- `update_project` (main.py lines 194-215): 404 when missing, 403 when
the requester is not the owner, otherwise `$set` all fields plus
`updated_at` and return the re-read document. -/
def update_project (db : DB) (project_id : String) (payload : ProjectIn)
    (user : AuthUser) (now : Int) : DB × Except Err ProjectOut :=
  if isValidOid project_id then
    match db.projects.find? (fun p => p.id == project_id) with
    | none => (db, .error (.notFound "Project not found"))
    | some p =>
      if p.owner_id == user.id then
        let db' := { db with
          projects := (updateFirst (fun x => x.id == project_id)
            (applyProjectSet payload now) db.projects) }
        match db'.projects.find? (fun x => x.id == project_id) with
        | none => (db', .error (.serverError "NoneType"))
        | some p' => (db', .ok (toProjectOut p'))
      else (db, .error (.forbidden "Not authorized"))
  else (db, .error (.serverError "InvalidId"))

/-- `delete_project` (main.py lines 218-229): 404 / 403 as above, then
`delete_one` on the project and `delete_many` cleanup of saved records and
collaboration requests referencing the id. -/
def delete_project (db : DB) (project_id : String) (user : AuthUser) :
    DB × Except Err Unit :=
  if isValidOid project_id then
    match db.projects.find? (fun p => p.id == project_id) with
    | none => (db, .error (.notFound "Project not found"))
    | some p =>
      if p.owner_id == user.id then
        ({ db with
            projects := removeFirst (fun x => x.id == project_id) db.projects
            saved := db.saved.filter (fun s => !(s.project_id == project_id))
            collabs := db.collabs.filter (fun c => !(c.project_id == project_id)) },
          .ok ())
      else (db, .error (.forbidden "Not authorized"))
  else (db, .error (.serverError "InvalidId"))

/-! ## Saved projects -/

/-- The `find_one` filter of `save_project`: same user and same (raw,
unvalidated) project id string. -/
def savedPred (uid pid : String) (s : SavedRec) : Bool :=
  s.user_id == uid && s.project_id == pid

/-- `save_project` (main.py lines 233-239): if a saved record for
`(user, project_id)` already exists return `{"saved": true}`, otherwise
insert one.  No `ObjectId` conversion and no project-existence check
happens; the returned `Bool` is the `saved` field of the response. -/
def save_project (db : DB) (project_id : String) (user : AuthUser) (now : Int) :
    DB × Bool :=
  match db.saved.find? (savedPred user.id project_id) with
  | some _ => (db, true)
  | none =>
    ({ db with saved := db.saved ++ [⟨user.id, project_id, now⟩] }, true)

/-- `my_saved` (`GET /me/saved`, main.py lines 242-263): the list
comprehension `[ObjectId(s["project_id"]) for s in saved]` converts every
saved id eagerly, so a single malformed id raises `InvalidId` and the
request fails with a 500; otherwise the `$in` query resolves the ids and
silently drops those with no matching project. -/
def my_saved (db : DB) (user : AuthUser) : Except Err (List ProjectOut) :=
  let saved := db.saved.filter (fun s => s.user_id == user.id)
  if saved.all (fun s => isValidOid s.project_id) then
    let ids := saved.map (fun s => s.project_id)
    .ok ((db.projects.filter (fun p => ids.contains p.id)).map toProjectOut)
  else .error (.serverError "InvalidId")

/-! ## Collaboration requests -/

/-- `UPLOAD_DIR = os.getenv("UPLOAD_DIR", "uploads")`. -/
def UPLOAD_DIR : String := "uploads"

/-- `apply_to_project` (main.py lines 271-300).  `freshFileOid` models the
`str(ObjectId())` generated for the stored file name and `freshRecId` the
`_id` Mongo assigns to the inserted request document; the upload's original
file name and bytes arrive as `filename`/`content`. -/
def apply_to_project (db : DB) (fs : FS) (freshFileOid freshRecId : String)
    (project_id message portfolio_url filename : String) (content : List Nat)
    (user : AuthUser) (now : Int) : DB × FS × Except Err Unit :=
  if isValidOid project_id then
    match db.projects.find? (fun p => p.id == project_id) with
    | none => (db, fs, .error (.notFound "Project not found"))
    | some project =>
      if project.visibility == "private" then
        (db, fs, .error (.notFound "Project not found"))
      else
        let path := UPLOAD_DIR ++ "/" ++ freshFileOid ++ "_" ++ filename
        let rcd : CollabRec :=
          { id := freshRecId
            project_id := project_id
            applicant_id := user.id
            message := message
            portfolio_url := portfolio_url
            document_path := path
            status := "pending"
            created_at := now }
        ({ db with collabs := db.collabs ++ [rcd] }, (path, content) :: fs, .ok ())
  else (db, fs, .error (.serverError "InvalidId"))

/-- `update_status` (`POST /owner/requests/{id}/status`, main.py lines
356-367): 404 when the request is missing, 403 when the parent project is
missing or not owned by the requester, 400 on a status outside
`{pending, accepted, rejected}`, otherwise `$set` the status. -/
def update_status (db : DB) (request_id : String) (status : String)
    (user : AuthUser) : DB × Except Err Unit :=
  if isValidOid request_id then
    match db.collabs.find? (fun c => c.id == request_id) with
    | none => (db, .error (.notFound "Request not found"))
    | some r =>
      if isValidOid r.project_id then
        match db.projects.find? (fun p => p.id == r.project_id) with
        | none => (db, .error (.forbidden "Not authorized"))
        | some p =>
          if p.owner_id == user.id then
            if ["pending", "accepted", "rejected"].contains status then
              ({ db with collabs := (updateFirst (fun c => c.id == request_id)
                  (fun c => { c with status := status }) db.collabs) },
                .ok ())
            else (db, .error (.invalidArg "Invalid status"))
          else (db, .error (.forbidden "Not authorized"))
      else (db, .error (.serverError "InvalidId"))
  else (db, .error (.serverError "InvalidId"))

/-! ## Profile -/

/-- Request body of `POST /me`: only an optional name. -/
structure ProfileUpdate where
  name : Option String
deriving Repr, DecidableEq

/-- The profile response `{"id": ..., "email": ..., "name": ...}`. -/
structure MeResp where
  id : String
  email : String
  name : String
deriving Repr, DecidableEq

/-- `update_me` (main.py lines 380-386): `$set` only the fields of the
payload that are not `None` (so only `name`, and nothing when it is
absent), then re-read the user document for the response.  The `id` field
of the response is taken from the guard's `user`, the rest from the
re-read record; a vanished user record would make `u.get(...)` raise. -/
def update_me (db : DB) (user : AuthUser) (payload : ProfileUpdate) :
    DB × Except Err MeResp :=
  if isValidOid user.id then
    let db' :=
      match payload.name with
      | none => db
      | some n =>
        { db with users := (updateFirst (fun u => u.id == user.id)
            (fun u => { u with name := n }) db.users) }
    match db'.users.find? (fun u => u.id == user.id) with
    | none => (db', .error (.serverError "NoneType"))
    | some u => (db', .ok { id := user.id, email := u.email, name := u.name })
  else (db, .error (.serverError "InvalidId"))

/-! ## Helper lemmas about the string machinery -/

theorem unesc_esc (l : List Char) : unesc (esc l) = l := by
  induction l with
  | nil => rfl
  | cons c cs ih =>
    show unesc (escC c ++ esc cs) = c :: cs
    by_cases h1 : c = '%'
    · subst h1; simp [escC, unesc, unescPair, ih]
    · by_cases h2 : c = '.'
      · subst h2; simp [escC, unesc, unescPair, ih]
      · by_cases h3 : c = ' '
        · subst h3; simp [escC, unesc, unescPair, ih]
        · simp only [escC, if_neg h1, if_neg h2, if_neg h3, List.singleton_append]
          cases hes : esc cs with
          | nil =>
            have hcs : cs = [] := by rw [← ih, hes]; rfl
            subst hcs
            simp [unesc]
          | cons d ds =>
            rw [unesc, if_neg h1, ← hes, ih]

theorem esc_injective {a b : List Char} (h : esc a = esc b) : a = b := by
  have := congrArg unesc h
  simpa [unesc_esc] using this

theorem mem_esc_ne (l : List Char) :
    ∀ x ∈ esc l, x ≠ '.' ∧ x ≠ ' ' := by
  induction l with
  | nil => intro x hx; cases hx
  | cons c cs ih =>
    intro x hx
    rcases List.mem_append.1 hx with hx | hx
    · dsimp [escC] at hx
      by_cases h1 : c = '%'
      · simp [h1] at hx; rcases hx with rfl; decide
      · by_cases h2 : c = '.'
        · simp [h1, h2] at hx
          rcases hx with rfl | rfl <;> decide
        · by_cases h3 : c = ' '
          · simp [h1, h2, h3] at hx
            rcases hx with rfl | rfl <;> decide
          · simp [h1, h2, h3] at hx
            subst hx; exact ⟨h2, h3⟩
    · exact ih x hx

theorem splitOnC_sepFree {sep : Char} {l : List Char}
    (h : ∀ x ∈ l, x ≠ sep) : splitOnC sep l = [l] := by
  induction l with
  | nil => rfl
  | cons c cs ih =>
    have hc : c ≠ sep := h c (List.mem_cons_self c cs)
    have ih' := ih (fun x hx => h x (List.mem_cons_of_mem c hx))
    simp [splitOnC, hc, ih', consHead]

theorem splitOnC_append {sep : Char} {a : List Char} (b : List Char)
    (h : ∀ x ∈ a, x ≠ sep) :
    splitOnC sep (a ++ sep :: b) = a :: splitOnC sep b := by
  induction a with
  | nil => simp [splitOnC]
  | cons c cs ih =>
    have hc : c ≠ sep := h c (List.mem_cons_self c cs)
    have ih' := ih (fun x hx => h x (List.mem_cons_of_mem c hx))
    simp [splitOnC, hc, ih', consHead]

theorem mem_sealOpt_ne (o : Option String) :
    ∀ x ∈ sealOpt o, x ≠ '.' ∧ x ≠ ' ' := by
  cases o with
  | none => intro x hx; simp [sealOpt] at hx; subst hx; decide
  | some s =>
    intro x hx
    simp only [sealOpt, List.mem_cons] at hx
    rcases hx with rfl | hx
    · decide
    · exact mem_esc_ne s.data x hx

theorem unsealOpt_sealOpt (o : Option String) :
    unsealOpt (sealOpt o) = some o := by
  cases o with
  | none => rfl
  | some s =>
    simp [sealOpt, unsealOpt, unesc_esc]

/-- Round trip of the JWT model: decoding with the signing key recovers the
encoded claims, with the issued-at claim carried as its decimal string. -/
theorem decodeJwt_encodeJwt (key : String) (sub email : Option String) (iat : Int) :
    decodeJwt key (encodeJwt key sub email iat) = some ⟨sub, email, toString iat⟩ := by
  have hs := mem_sealOpt_ne sub
  have he := mem_sealOpt_ne email
  have hi := mem_esc_ne (toString iat).data
  have hk := mem_esc_ne key.data
  have hsplit : splitOnC '.' (sealOpt sub ++ '.' :: (sealOpt email ++ '.' ::
      (esc (toString iat).data ++ '.' :: esc key.data))) =
      [sealOpt sub, sealOpt email, esc (toString iat).data, esc key.data] := by
    rw [splitOnC_append _ (fun x hx => (hs x hx).1),
        splitOnC_append _ (fun x hx => (he x hx).1),
        splitOnC_append _ (fun x hx => (hi x hx).1),
        splitOnC_sepFree (fun x hx => (hk x hx).1)]
  simp [decodeJwt, encodeJwt, hsplit, unsealOpt_sealOpt, unesc_esc]

/-- Every character of an encoded token is different from the space
character, so `"Bearer <token>"` splits into exactly two words. -/
theorem encodeJwt_no_space (key : String) (sub email : Option String) (iat : Int) :
    ∀ x ∈ (encodeJwt key sub email iat).data, x ≠ ' ' := by
  intro x hx
  simp only [encodeJwt] at hx
  rcases List.mem_append.1 hx with h | h
  · exact (mem_sealOpt_ne sub x h).2
  rcases List.mem_cons.1 h with rfl | h
  · decide
  rcases List.mem_append.1 h with h | h
  · exact (mem_sealOpt_ne email x h).2
  rcases List.mem_cons.1 h with rfl | h
  · decide
  rcases List.mem_append.1 h with h | h
  · exact (mem_esc_ne _ x h).2
  rcases List.mem_cons.1 h with rfl | h
  · decide
  · exact (mem_esc_ne _ x h).2

theorem data_append (a b : String) : (a ++ b).data = a.data ++ b.data := by
  cases a; cases b; rfl

/-- Splitting an authorization header of the shape `Bearer <token>` on
spaces yields exactly the scheme and the token, provided the token has no
space in it (as tokens produced by `encodeJwt` do). -/
theorem splitOnC_bearer (tok : String) (h : ∀ x ∈ tok.data, x ≠ ' ') :
    splitOnC ' ' ("Bearer " ++ tok).data = ["Bearer".data, tok.data] := by
  rw [data_append]
  have : ("Bearer " : String).data = "Bearer".data ++ ' ' :: [] := by decide
  rw [this, List.append_assoc, List.singleton_append,
      splitOnC_append _ (by decide), splitOnC_sepFree h]

/-! ## Helper lemmas about Mongo-style list operations -/

theorem find?_updateFirst (p : α → Bool) (f : α → α) (hf : ∀ x, p (f x) = p x) :
    ∀ l : List α, (updateFirst p f l).find? p = (l.find? p).map f := by
  intro l
  induction l with
  | nil => rfl
  | cons x xs ih =>
    by_cases hx : p x
    · simp [updateFirst, hx, List.find?_cons_of_pos, hf]
    · have hx' : p x = false := by simpa using hx
      simp [updateFirst, hx', List.find?_cons_of_neg, ih]

theorem updateFirst_decomp (p : α → Bool) (f : α → α) :
    ∀ {l : List α} {x : α}, l.find? p = some x →
      ∃ l1 l2, l = l1 ++ x :: l2 ∧ (∀ w ∈ l1, p w = false) ∧
        updateFirst p f l = l1 ++ f x :: l2 := by
  intro l
  induction l with
  | nil => intro x h; cases h
  | cons y ys ih =>
    intro x h
    by_cases hy : p y
    · rw [List.find?_cons_of_pos _ hy] at h
      cases h
      exact ⟨[], ys, rfl, by simp, by simp [updateFirst, hy]⟩
    · have hy' : p y = false := by simpa using hy
      rw [List.find?_cons_of_neg _ (by simp [hy'])] at h
      obtain ⟨l1, l2, hdec, hnone, hupd⟩ := ih h
      refine ⟨y :: l1, l2, by rw [hdec]; rfl, ?_, ?_⟩
      · intro w hw
        rcases List.mem_cons.1 hw with rfl | hw
        · exact hy'
        · exact hnone w hw
      · simp [updateFirst, hy', hupd]

theorem find?_middle {p : α → Bool} {l1 : List α} {x : α} {l2 : List α}
    (h1 : ∀ w ∈ l1, p w = false) (hx : p x = true) :
    (l1 ++ x :: l2).find? p = some x := by
  induction l1 with
  | nil => simp [List.find?_cons_of_pos _ hx]
  | cons y ys ih =>
    have hy := h1 y (List.mem_cons_self y ys)
    rw [List.cons_append, List.find?_cons_of_neg _ (by simp [hy])]
    exact ih (fun w hw => h1 w (List.mem_cons_of_mem y hw))

theorem find?_eq_none_iff {p : α → Bool} {l : List α} :
    l.find? p = none ↔ ∀ x ∈ l, p x = false := by
  rw [List.find?_eq_none]
  constructor
  · intro h x hx; simpa using h x hx
  · intro h x hx; simp [h x hx]

/-! ## Concrete example data used by witnesses and counterexamples -/

def oidA : String := "aaaaaaaaaaaaaaaaaaaaaaaa"

def oidB : String := "bbbbbbbbbbbbbbbbbbbbbbbb"

def oidC : String := "cccccccccccccccccccccccc"

def oidD : String := "dddddddddddddddddddddddd"

def exAlice : UserRec :=
  { id := oidA, name := "Alice", email := "alice@example.com"
    password_hash := "$2b$12$x", provider := "credentials", created_at := 0 }

def exAuthAlice : AuthUser := { id := oidA, email := "alice@example.com", name := "Alice" }

def exAuthBob : AuthUser := { id := oidC, email := "bob@example.com", name := "Bob" }

def exProject : ProjectRec :=
  { id := oidB, owner_id := oidA, title := "Sample", description := "demo"
    skills_required := [], expected_contribution := none, duration := none
    tags := ["lean"], visibility := "public", created_at := 0, updated_at := none }

def exDb : DB := { users := [exAlice], projects := [exProject], saved := [], collabs := [] }

def exPayload : ProjectIn :=
  { title := "New", description := "upd", skills_required := ["x"]
    expected_contribution := none, duration := none, tags := ["t"]
    visibility := "public" }

/-! ## C1 -/

/-- C1: for every project and authenticated user, `update_project`
(`PUT /projects/{id}`) and `delete_project` (`DELETE /projects/{id}`) fail
with `NotFound` when no project with the given (well-formed) id exists,
fail with `Forbidden` when the requester's id differs from the project's
`owner_id`, and succeed when they agree; in both failing cases the
database — in particular every project record — is returned unchanged. -/
theorem C1_update_delete_ownership (db : DB) (project_id : String)
    (payload : ProjectIn) (user : AuthUser) (now : Int)
    (hid : isValidOid project_id = true) :
    (db.projects.find? (fun p => p.id == project_id) = none →
      update_project db project_id payload user now =
        (db, .error (.notFound "Project not found")) ∧
      delete_project db project_id user =
        (db, .error (.notFound "Project not found"))) ∧
    (∀ p, db.projects.find? (fun x => x.id == project_id) = some p →
      (p.owner_id ≠ user.id →
        update_project db project_id payload user now =
          (db, .error (.forbidden "Not authorized")) ∧
        delete_project db project_id user =
          (db, .error (.forbidden "Not authorized"))) ∧
      (p.owner_id = user.id →
        update_project db project_id payload user now =
          ({ db with projects := (updateFirst (fun x => x.id == project_id)
              (applyProjectSet payload now) db.projects) },
            .ok (toProjectOut (applyProjectSet payload now p))) ∧
        delete_project db project_id user =
          ({ db with
              projects := removeFirst (fun x => x.id == project_id) db.projects
              saved := db.saved.filter (fun s => !(s.project_id == project_id))
              collabs := db.collabs.filter (fun c => !(c.project_id == project_id)) },
            .ok ()))) := by
  constructor
  · intro hnone
    exact ⟨by simp [update_project, hid, hnone], by simp [delete_project, hid, hnone]⟩
  · intro p hp
    constructor
    · intro hne
      have hne' : (p.owner_id == user.id) = false := by simp [hne]
      exact ⟨by simp [update_project, hid, hp, hne'],
        by simp [delete_project, hid, hp, hne']⟩
    · intro heq
      have heq' : (p.owner_id == user.id) = true := by simp [heq]
      constructor
      · have hfind := find?_updateFirst (fun x : ProjectRec => x.id == project_id)
          (applyProjectSet payload now) (fun _ => rfl) db.projects
        rw [hp] at hfind
        simp [update_project, hid, hp, heq', hfind]
      · simp [delete_project, hid, hp, heq']

/-- Witness for C1 at concrete inputs: the owner's update and delete both
succeed, and a different authenticated user is rejected with `Forbidden`
while the database stays unchanged. -/
theorem C1_update_delete_ownership_witness :
    (update_project exDb oidB exPayload exAuthAlice 9).2 =
      .ok (toProjectOut (applyProjectSet exPayload 9 exProject)) ∧
    (delete_project exDb oidB exAuthAlice).2 = .ok () ∧
    update_project exDb oidB exPayload exAuthBob 9 =
      (exDb, .error (.forbidden "Not authorized")) := by
  have h := C1_update_delete_ownership exDb oidB exPayload exAuthAlice 9 (by decide)
  have hB := C1_update_delete_ownership exDb oidB exPayload exAuthBob 9 (by decide)
  have hs := (h.2 exProject (by decide)).2 (by decide)
  have hf := (hB.2 exProject (by decide)).1 (by decide)
  exact ⟨congrArg Prod.snd hs.1, congrArg Prod.snd hs.2, hf.1⟩

/-! ## C2 -/

/-- An authentication failure: HTTP 401 with some message. -/
def isUnauth (r : Except Err AuthUser) : Prop := ∃ m, r = .error (.unauth m)

/-- C2 (amended): the guard fails with a 401 whenever the header is
missing, is not of the form `Bearer <token>`, the token does not verify,
the `sub`/`email` claims are absent (or empty, which Python's falsiness
check treats the same way), or the subject is a well-formed `ObjectId`
string with no matching user; when the subject is a truthy but malformed
`ObjectId` string (so no user with it exists either) the
`ObjectId(user_id)` call raises `bson.errors.InvalidId` — a `BSONError`,
not a `ValueError` — which escapes the `except (JWTError, ValueError)`
clause and the request fails with a 500 instead of a 401.  In every other
case the guard succeeds and returns id, email and name read from the
stored user record.  The hypothesis `hwf` states that stored user ids are
well-formed `ObjectId` strings, as Mongo guarantees for generated
`_id`s. -/
theorem C2_guard_characterization (db : DB)
    (hwf : ∀ u ∈ db.users, isValidOid u.id = true) :
    (get_current_user db none = .error (.unauth "Missing Authorization header")) ∧
    (∀ a : String,
      (¬ ∃ sch tok, splitOnC ' ' a.data = [sch, tok] ∧ lowerL sch = "bearer".data) →
      isUnauth (get_current_user db (some a))) ∧
    (∀ a : String, ∀ sch tok, splitOnC ' ' a.data = [sch, tok] →
      lowerL sch = "bearer".data →
      decodeJwt JWT_SECRET (String.mk tok) = none →
      isUnauth (get_current_user db (some a))) ∧
    (∀ a : String, ∀ sch tok claims, splitOnC ' ' a.data = [sch, tok] →
      lowerL sch = "bearer".data →
      decodeJwt JWT_SECRET (String.mk tok) = some claims →
      (claims.sub = none ∨ claims.sub = some "" ∨
        claims.email = none ∨ claims.email = some "") →
      isUnauth (get_current_user db (some a))) ∧
    (∀ a : String, ∀ sch tok claims uid em, splitOnC ' ' a.data = [sch, tok] →
      lowerL sch = "bearer".data →
      decodeJwt JWT_SECRET (String.mk tok) = some claims →
      claims.sub = some uid → claims.email = some em →
      uid ≠ "" → em ≠ "" → isValidOid uid = true →
      db.users.find? (fun u => u.id == uid) = none →
      isUnauth (get_current_user db (some a))) ∧
    (∀ a : String, ∀ sch tok claims uid em, splitOnC ' ' a.data = [sch, tok] →
      lowerL sch = "bearer".data →
      decodeJwt JWT_SECRET (String.mk tok) = some claims →
      claims.sub = some uid → claims.email = some em →
      uid ≠ "" → em ≠ "" → isValidOid uid = false →
      get_current_user db (some a) = .error (.serverError "InvalidId")) ∧
    (∀ a : String, ∀ sch tok claims uid em u, splitOnC ' ' a.data = [sch, tok] →
      lowerL sch = "bearer".data →
      decodeJwt JWT_SECRET (String.mk tok) = some claims →
      claims.sub = some uid → claims.email = some em → em ≠ "" →
      db.users.find? (fun x => x.id == uid) = some u →
      get_current_user db (some a) =
        .ok { id := u.id, email := u.email, name := u.name }) := by
  refine ⟨rfl, ?_, ?_, ?_, ?_, ?_, ?_⟩
  · intro a hno
    cases hsp : splitOnC ' ' a.data with
    | nil => exact ⟨"Invalid or expired token", by simp [get_current_user, hsp]⟩
    | cons sch rest =>
      cases rest with
      | nil => exact ⟨"Invalid or expired token", by simp [get_current_user, hsp]⟩
      | cons tok rest2 =>
        cases rest2 with
        | nil =>
          have hlow : ¬ lowerL sch = "bearer".data := fun hl => hno ⟨sch, tok, hsp, hl⟩
          exact ⟨"Invalid or expired token", by simp [get_current_user, hsp, hlow]⟩
        | cons z zs => exact ⟨"Invalid or expired token", by simp [get_current_user, hsp]⟩
  · intro a sch tok hsp hlow hdec
    exact ⟨"Invalid or expired token", by simp [get_current_user, hsp, hlow, hdec]⟩
  · intro a sch tok claims hsp hlow hdec habs
    obtain ⟨sub, em, iatRaw⟩ := claims
    rcases habs with h | h | h | h <;> simp only [] at h
    · subst h; exact ⟨"Invalid or expired token", by simp [get_current_user, hsp, hlow, hdec]⟩
    · subst h
      cases em with
      | none => exact ⟨"Invalid or expired token", by simp [get_current_user, hsp, hlow, hdec]⟩
      | some e => exact ⟨"Invalid or expired token", by simp [get_current_user, hsp, hlow, hdec]⟩
    · subst h
      cases sub with
      | none => exact ⟨"Invalid or expired token", by simp [get_current_user, hsp, hlow, hdec]⟩
      | some s => exact ⟨"Invalid or expired token", by simp [get_current_user, hsp, hlow, hdec]⟩
    · subst h
      cases sub with
      | none => exact ⟨"Invalid or expired token", by simp [get_current_user, hsp, hlow, hdec]⟩
      | some s => exact ⟨"Invalid or expired token", by simp [get_current_user, hsp, hlow, hdec]⟩
  · intro a sch tok claims uid em hsp hlow hdec hsub hem huid hemne hv hfind
    obtain ⟨sub0, em0, ia0⟩ := claims
    dsimp only at hsub hem
    subst hsub; subst hem
    exact ⟨"User not found", by simp [get_current_user, hsp, hlow, hdec, huid, hemne, hv, hfind]⟩
  · intro a sch tok claims uid em hsp hlow hdec hsub hem huid hemne hv
    obtain ⟨sub0, em0, ia0⟩ := claims
    dsimp only at hsub hem
    subst hsub; subst hem
    simp [get_current_user, hsp, hlow, hdec, huid, hemne, hv]
  · intro a sch tok claims uid em u hsp hlow hdec hsub hem hemne hfind
    obtain ⟨sub0, em0, ia0⟩ := claims
    dsimp only at hsub hem
    subst hsub; subst hem
    have hu : u ∈ db.users := List.mem_of_find?_eq_some hfind
    have huid : u.id = uid := by
      have := List.find?_some hfind
      simpa using this
    have hvalid : isValidOid uid = true := huid ▸ hwf u hu
    have huidne : uid ≠ "" := by
      intro h
      rw [h] at hvalid
      exact absurd hvalid (by decide)
    simp [get_current_user, hsp, hlow, hdec, huidne, hemne, hvalid, hfind]

/-- Counterexample to C2 as stated: a correctly signed token whose subject
`zzz` is truthy but not a well-formed `ObjectId` string — so no user with
that subject id exists in the store — makes `ObjectId(user_id)` raise
`bson.errors.InvalidId`, which subclasses `BSONError` rather than
`ValueError` and therefore escapes `except (JWTError, ValueError)`: the
request fails with a 500, not the claimed 401. -/
theorem C2_guard_counterexample :
    get_current_user exDb
        (some ("Bearer " ++ encodeJwt JWT_SECRET (some "zzz") (some "e@x") 0)) =
      .error (.serverError "InvalidId") ∧
    (∀ u ∈ exDb.users, ¬ u.id = "zzz") := by decide

/-- Witness for C2: a missing header is rejected, a well-formed header
carrying a valid token for a stored user resolves to that user's stored
identity, and a valid token with a malformed subject produces the 500. -/
theorem C2_guard_characterization_witness :
    get_current_user exDb none = .error (.unauth "Missing Authorization header") ∧
    get_current_user exDb (some ("Bearer " ++ create_token oidA "alice@example.com" 3)) =
      .ok { id := oidA, email := "alice@example.com", name := "Alice" } ∧
    get_current_user exDb
        (some ("Bearer " ++ encodeJwt JWT_SECRET (some "zz") (some "e@x") 1)) =
      .error (.serverError "InvalidId") := by
  have h := C2_guard_characterization exDb (by decide)
  refine ⟨h.1, ?_, ?_⟩
  · exact h.2.2.2.2.2.2 ("Bearer " ++ create_token oidA "alice@example.com" 3)
      "Bearer".data (create_token oidA "alice@example.com" 3).data
      ⟨some oidA, some "alice@example.com", "3"⟩ oidA "alice@example.com" exAlice
      (by decide) (by decide) (by decide) rfl rfl (by decide) (by decide)
  · exact h.2.2.2.2.2.1 ("Bearer " ++ encodeJwt JWT_SECRET (some "zz") (some "e@x") 1)
      "Bearer".data (encodeJwt JWT_SECRET (some "zz") (some "e@x") 1).data
      ⟨some "zz", some "e@x", "1"⟩ "zz" "e@x"
      (by decide) (by decide) (by decide) rfl rfl (by decide) (by decide) (by decide)

/-! ## C3 -/

def exPrivate : ProjectRec :=
  { id := oidD, owner_id := oidA, title := "Hidden", description := "secret"
    skills_required := [], expected_contribution := none, duration := none
    tags := [], visibility := "private", created_at := 1, updated_at := none }

def exDbPriv : DB :=
  { users := [exAlice], projects := [exProject, exPrivate], saved := [], collabs := [] }

/-- C3: applying to a project fails with `NotFound` exactly when the
(well-formed) id resolves to no project or to a private one; otherwise the
uploaded bytes are written under a path prefixed by the freshly generated
id, one pending `CollaborationRequest` referencing project, applicant,
message, portfolio URL and document path is appended, and the stored bytes
are retrievable at that path. -/
theorem C3_apply_to_project (db : DB) (fs : FS) (freshFileOid freshRecId : String)
    (project_id message portfolio_url filename : String) (content : List Nat)
    (user : AuthUser) (now : Int) (hid : isValidOid project_id = true) :
    (db.projects.find? (fun p => p.id == project_id) = none →
      apply_to_project db fs freshFileOid freshRecId project_id message
          portfolio_url filename content user now =
        (db, fs, .error (.notFound "Project not found"))) ∧
    (∀ p, db.projects.find? (fun x => x.id == project_id) = some p →
      (p.visibility = "private" →
        apply_to_project db fs freshFileOid freshRecId project_id message
            portfolio_url filename content user now =
          (db, fs, .error (.notFound "Project not found"))) ∧
      (p.visibility ≠ "private" →
        apply_to_project db fs freshFileOid freshRecId project_id message
            portfolio_url filename content user now =
          ({ db with collabs := (db.collabs ++
              [{ id := freshRecId
                 project_id := project_id
                 applicant_id := user.id
                 message := message
                 portfolio_url := portfolio_url
                 document_path := UPLOAD_DIR ++ "/" ++ freshFileOid ++ "_" ++ filename
                 status := "pending"
                 created_at := now }]) },
            (UPLOAD_DIR ++ "/" ++ freshFileOid ++ "_" ++ filename, content) :: fs,
            .ok ()) ∧
        ((UPLOAD_DIR ++ "/" ++ freshFileOid ++ "_" ++ filename, content) :: fs).lookup
            (UPLOAD_DIR ++ "/" ++ freshFileOid ++ "_" ++ filename) = some content)) := by
  constructor
  · intro hnone
    simp [apply_to_project, hid, hnone]
  · intro p hp
    constructor
    · intro hpriv
      have hpriv' : (p.visibility == "private") = true := by simp [hpriv]
      simp [apply_to_project, hid, hp, hpriv']
    · intro hpub
      have hpub' : (p.visibility == "private") = false := by simp [hpub]
      refine ⟨by simp [apply_to_project, hid, hp, hpub'], ?_⟩
      simp [List.lookup]

/-- Witness for C3: applying to the stored public project succeeds and
appends one pending request, while the private and a missing project id
both yield `NotFound`. -/
theorem C3_apply_to_project_witness :
    (apply_to_project exDbPriv [] oidC oidD oidB "hi" "http://p" "cv.pdf" [1, 2]
        exAuthBob 5).2.2 = .ok () ∧
    apply_to_project exDbPriv [] oidC oidD oidD "hi" "http://p" "cv.pdf" [1, 2]
        exAuthBob 5 = (exDbPriv, [], .error (.notFound "Project not found")) ∧
    apply_to_project exDbPriv [] oidC oidD oidA "hi" "http://p" "cv.pdf" [1, 2]
        exAuthBob 5 = (exDbPriv, [], .error (.notFound "Project not found")) := by
  have hpub := C3_apply_to_project exDbPriv [] oidC oidD oidB "hi" "http://p"
    "cv.pdf" [1, 2] exAuthBob 5 (by decide)
  have hpriv := C3_apply_to_project exDbPriv [] oidC oidD oidD "hi" "http://p"
    "cv.pdf" [1, 2] exAuthBob 5 (by decide)
  have hmiss := C3_apply_to_project exDbPriv [] oidC oidD oidA "hi" "http://p"
    "cv.pdf" [1, 2] exAuthBob 5 (by decide)
  refine ⟨?_, ?_, ?_⟩
  · exact congrArg (fun x => x.2.2) ((hpub.2 exProject (by decide)).2 (by decide)).1
  · exact (hpriv.2 exPrivate (by decide)).1 rfl
  · exact hmiss.1 (by decide)

/-! ## C4 -/

def exReq : CollabRec :=
  { id := oidC, project_id := oidB, applicant_id := oidD, message := "m"
    portfolio_url := "u", document_path := "d", status := "accepted", created_at := 2 }

def exDbReq : DB :=
  { users := [exAlice], projects := [exProject], saved := [], collabs := [exReq] }

/-- C4: for a collaboration request owned (through its parent project) by
the requester, `update_status` rejects any status outside
`{pending, accepted, rejected}` with `InvalidArgument` leaving the database
— in particular the request's status — unchanged, and accepts any status
inside the set, overwriting the stored status with exactly that value no
matter what the current status is. -/
theorem C4_update_status_validation (db : DB) (request_id status : String)
    (user : AuthUser) (r : CollabRec) (p : ProjectRec)
    (hrid : isValidOid request_id = true)
    (hr : db.collabs.find? (fun c => c.id == request_id) = some r)
    (hpid : isValidOid r.project_id = true)
    (hp : db.projects.find? (fun x => x.id == r.project_id) = some p)
    (hown : p.owner_id = user.id) :
    (status ∉ (["pending", "accepted", "rejected"] : List String) →
      update_status db request_id status user =
        (db, .error (.invalidArg "Invalid status"))) ∧
    (status ∈ (["pending", "accepted", "rejected"] : List String) →
      update_status db request_id status user =
        ({ db with collabs := (updateFirst (fun c => c.id == request_id)
            (fun c => { c with status := status }) db.collabs) }, .ok ()) ∧
      (updateFirst (fun c => c.id == request_id)
          (fun c => { c with status := status }) db.collabs).find?
          (fun c => c.id == request_id) = some { r with status := status }) := by
  have hown' : (p.owner_id == user.id) = true := by simp [hown]
  constructor
  · intro hno
    simp only [List.mem_cons, List.not_mem_nil, or_false, not_or] at hno
    obtain ⟨h1, h2, h3⟩ := hno
    simp [update_status, hrid, hr, hpid, hp, hown', h1, h2, h3]
  · intro hyes
    simp only [List.mem_cons, List.not_mem_nil, or_false] at hyes
    constructor
    · rcases hyes with rfl | rfl | rfl <;>
        simp [update_status, hrid, hr, hpid, hp, hown']
    · have hfind := find?_updateFirst (fun c : CollabRec => c.id == request_id)
        (fun c => { c with status := status }) (fun _ => rfl) db.collabs
      rw [hr] at hfind
      exact hfind

/-- Witness for C4 on a concrete accepted request: re-accepting with the
bogus status `done` fails with 400 and changes nothing, while moving it
back to `pending` (a transition away from a terminal status) succeeds. -/
theorem C4_update_status_validation_witness :
    update_status exDbReq oidC "done" exAuthAlice =
      (exDbReq, .error (.invalidArg "Invalid status")) ∧
    (update_status exDbReq oidC "pending" exAuthAlice).1.collabs.find?
        (fun c => c.id == oidC) =
      some { exReq with status := "pending" } := by
  have h1 := C4_update_status_validation exDbReq oidC "done" exAuthAlice
    exReq exProject (by decide) (by decide) (by decide) (by decide) (by decide)
  have h2 := C4_update_status_validation exDbReq oidC "pending" exAuthAlice
    exReq exProject (by decide) (by decide) (by decide) (by decide) (by decide)
  refine ⟨h1.1 (by decide), ?_⟩
  have h2' := h2.2 (by decide)
  rw [congrArg (fun x => x.1.collabs) h2'.1]
  exact h2'.2

/-! ## C5 -/

/-- Number of stored user records with the given email. -/
def countEmail (db : DB) (e : String) : Nat :=
  (db.users.filter (fun u => u.email == e)).length

/-- C5: signup with an email already present fails with a 400 and inserts
nothing; signup with a fresh email appends exactly one record whose
`password_hash` is the salted hash of the password (never the plaintext)
and returns a token; and signup preserves the invariant that at most one
record per email exists. -/
theorem C5_signup_duplicate_email (db : DB) (freshId : String) (salt : Nat)
    (now : Int) (payload : SignUpRequest) :
    (∀ u0, db.users.find? (fun u => u.email == payload.email) = some u0 →
      signup db freshId salt now payload =
        (db, .error (.invalidArg "Email already registered"))) ∧
    (db.users.find? (fun u => u.email == payload.email) = none →
      signup db freshId salt now payload =
        ({ db with users := (db.users ++
            [{ id := freshId
               name := payload.name
               email := payload.email
               password_hash := hash_password salt payload.password
               provider := "credentials"
               created_at := now }]) },
          .ok (create_token freshId payload.email now)) ∧
      hash_password salt payload.password ≠ payload.password) ∧
    (∀ e, countEmail db e ≤ 1 →
      countEmail (signup db freshId salt now payload).1 e ≤ 1) := by
  refine ⟨?_, ?_, ?_⟩
  · intro u0 h
    simp [signup, h]
  · intro h
    refine ⟨by simp [signup, h], ?_⟩
    intro heq
    have hlen := congrArg String.length heq
    rw [hash_password, String.length_append, String.length_append,
        String.length_append] at hlen
    have h7 : ("$2b$12$" : String).length = 7 := rfl
    have h1 : ("$" : String).length = 1 := rfl
    rw [h7, h1] at hlen
    omega
  · intro e hle
    cases hfind : db.users.find? (fun u => u.email == payload.email) with
    | some u0 => simpa [signup, hfind] using hle
    | none =>
      have hall := find?_eq_none_iff.1 hfind
      simp only [signup, hfind]
      by_cases hee : payload.email = e
      · subst hee
        have hzero : (db.users.filter (fun u => u.email == payload.email)).length = 0 := by
          rw [List.length_eq_zero]
          exact List.filter_eq_nil_iff.2 (fun u hu => by simp [hall u hu])
        simp [countEmail, List.filter_append, hzero]
      · have hne : (payload.email == e) = false := by simp [hee]
        simpa [countEmail, List.filter_append, hne] using hle

/-- Witness for C5: re-registering Alice's email fails and the database is
unchanged; registering a fresh email appends one properly hashed record. -/
theorem C5_signup_duplicate_email_witness :
    signup exDb oidC 7 4 { name := "Eve", email := "alice@example.com", password := "pw" } =
      (exDb, .error (.invalidArg "Email already registered")) ∧
    (signup exDb oidC 7 4 { name := "Carol", email := "carol@example.com", password := "pw" }).1.users =
      exDb.users ++
        [{ id := oidC, name := "Carol", email := "carol@example.com"
           password_hash := hash_password 7 "pw", provider := "credentials"
           created_at := 4 }] ∧
    countEmail (signup exDb oidC 7 4
        { name := "Carol", email := "carol@example.com", password := "pw" }).1
        "carol@example.com" ≤ 1 := by
  have hdup := C5_signup_duplicate_email exDb oidC 7 4
    { name := "Eve", email := "alice@example.com", password := "pw" }
  have hnew := C5_signup_duplicate_email exDb oidC 7 4
    { name := "Carol", email := "carol@example.com", password := "pw" }
  refine ⟨hdup.1 exAlice (by decide), ?_, hnew.2.2 "carol@example.com" (by decide)⟩
  exact congrArg (fun x => x.1.users) (hnew.2.1 (by decide)).1

/-! ## C6 -/

theorem string_ext {a b : String} (h : a.data = b.data) : a = b := by
  cases a; cases b; exact congrArg String.mk h

theorem string_mk_data (s : String) : String.mk s.data = s := rfl

theorem splitOnC_encodeJwt (key : String) (sub email : Option String) (iat : Int) :
    splitOnC '.' (encodeJwt key sub email iat).data =
      [sealOpt sub, sealOpt email, esc (toString iat).data, esc key.data] := by
  have hs := mem_sealOpt_ne sub
  have he := mem_sealOpt_ne email
  have hi := mem_esc_ne (toString iat).data
  have hk := mem_esc_ne key.data
  show splitOnC '.' (sealOpt sub ++ '.' :: (sealOpt email ++ '.' ::
      (esc (toString iat).data ++ '.' :: esc key.data))) = _
  rw [splitOnC_append _ (fun x hx => (hs x hx).1),
      splitOnC_append _ (fun x hx => (he x hx).1),
      splitOnC_append _ (fun x hx => (hi x hx).1),
      splitOnC_sepFree (fun x hx => (hk x hx).1)]

/-- C6: verifying a token produced by `create_token` recovers exactly the
encoded user id and email; verification does not depend on the issuance
time (no expiry claim exists, so it succeeds for every `iat`), and fails as
soon as the verifying key differs from the signing key; consequently the
guard resolves a `Bearer` header carrying such a token to the stored user
whenever a user with that id exists (ids being well-formed `ObjectId`
strings and emails nonempty, as for every user the backend creates). -/
theorem C6_token_roundtrip :
    (∀ (user_id email : String) (iat : Int),
      decodeJwt JWT_SECRET (create_token user_id email iat) =
        some ⟨some user_id, some email, toString iat⟩) ∧
    (∀ (key user_id email : String) (iat : Int), key ≠ JWT_SECRET →
      decodeJwt key (create_token user_id email iat) = none) ∧
    (∀ (db : DB) (user_id email : String) (iat : Int) (u : UserRec),
      isValidOid user_id = true → email ≠ "" →
      db.users.find? (fun x => x.id == user_id) = some u →
      get_current_user db (some ("Bearer " ++ create_token user_id email iat)) =
        .ok { id := u.id, email := u.email, name := u.name }) := by
  refine ⟨?_, ?_, ?_⟩
  · intro user_id email iat
    exact decodeJwt_encodeJwt JWT_SECRET (some user_id) (some email) iat
  · intro key user_id email iat hne
    have hsplit := splitOnC_encodeJwt JWT_SECRET (some user_id) (some email) iat
    have hkey : esc JWT_SECRET.data ≠ esc key.data := by
      intro h
      exact hne (string_ext (esc_injective h)).symm
    simp [create_token, decodeJwt, hsplit, hkey]
  · intro db user_id email iat u hvalid hemne hfind
    have hns := encodeJwt_no_space JWT_SECRET (some user_id) (some email) iat
    have hsp := splitOnC_bearer (create_token user_id email iat) hns
    have hdec := decodeJwt_encodeJwt JWT_SECRET (some user_id) (some email) iat
    have huidne : user_id ≠ "" := by
      intro h
      rw [h] at hvalid
      exact absurd hvalid (by decide)
    have hlow : lowerL "Bearer".data = "bearer".data := by decide
    simp only [get_current_user]
    rw [hsp]
    simp [hlow, string_mk_data, create_token, hdec, huidne, hemne, hvalid, hfind]

/-- Witness for C6: a concrete round trip, rejection under a different key,
and guard resolution of a freshly issued token for the stored user. -/
theorem C6_token_roundtrip_witness :
    decodeJwt JWT_SECRET (create_token "u1" "e@x" 5) = some ⟨some "u1", some "e@x", "5"⟩ ∧
    decodeJwt "other-key" (create_token "u1" "e@x" 5) = none ∧
    get_current_user exDb (some ("Bearer " ++ create_token oidA "alice@example.com" 99)) =
      .ok { id := oidA, email := "alice@example.com", name := "Alice" } := by
  refine ⟨C6_token_roundtrip.1 "u1" "e@x" 5, ?_, ?_⟩
  · exact C6_token_roundtrip.2.1 "other-key" "u1" "e@x" 5 (by decide)
  · exact C6_token_roundtrip.2.2 exDb oidA "alice@example.com" 99 exAlice
      (by decide) (by decide) (by decide)

/-! ## C7 -/

/-- Spec-side predicate, written from the specification's words: `q` is a
prefix of the text up to character case. -/
def startsWithCI : List Char → List Char → Bool
  | [], _ => true
  | _ :: _, [] => false
  | q :: qs, c :: cs => (q.toLower = c.toLower) && startsWithCI qs cs

/-- Spec-side predicate, written from the specification's words: the text
"contains q as a case-insensitive substring" (some contiguous stretch of
the text matches `q` character-by-character up to case). -/
def containsCI (q : List Char) : List Char → Bool
  | [] => startsWithCI q []
  | c :: cs => startsWithCI q (c :: cs) || containsCI q cs

theorem reMatchHere_eq_startsWithCI (s : List Char) (hs : '.' ∉ s) :
    ∀ l, reMatchHere s l = startsWithCI s l := by
  induction s with
  | nil => intro l; cases l <;> rfl
  | cons p ps ih =>
    intro l
    have hp : p ≠ '.' := fun h => hs (h ▸ List.mem_cons_self p ps)
    have hs' : '.' ∉ ps := fun h => hs (List.mem_cons_of_mem p h)
    cases l with
    | nil => rfl
    | cons c cs =>
      simp [reMatchHere, startsWithCI, hp, ih hs' cs]

theorem reSearch_eq_containsCI (s : List Char) (hs : '.' ∉ s) :
    ∀ l, reSearch s l = containsCI s l := by
  intro l
  induction l with
  | nil => exact reMatchHere_eq_startsWithCI s hs []
  | cons c cs ih =>
    simp [reSearch, containsCI, reMatchHere_eq_startsWithCI s hs, ih]

theorem qFilter_eq_true_iff (q : Option String) (p : ProjectRec) :
    qFilter q p = true ↔ (∀ s, q = some s → s ≠ "" → projMatchesQ s p = true) := by
  cases q with
  | none => simp [qFilter]
  | some s =>
    by_cases hs : s = ""
    · subst hs; simp [qFilter]
    · simp [qFilter, hs]

theorem tagFilter_eq_true_iff (tag : Option String) (p : ProjectRec) :
    tagFilter tag p = true ↔ (∀ t, tag = some t → t ≠ "" → p.tags.contains t = true) := by
  cases tag with
  | none => simp [tagFilter]
  | some t =>
    by_cases ht : t = ""
    · subst ht; simp [tagFilter]
    · simp [tagFilter, ht]

/-- C7 (amended): for text queries drawn from the regex fragment the
development models — literal characters plus the `.` wildcard, the
hypothesis `hq`; queries with other regex metacharacters are interpreted
as regexes by `$regex` or, if invalid, fail the request, and are outside
this model — `list_projects` returns exactly the public projects matching
`q` as a case-insensitive regular expression against title, description
and each tag, AND-combined with the exact tag-membership filter, ordered
newest `created_at` first; for queries in the fragment that are free of
the remaining metacharacter `.` the regex interpretation coincides with
case-insensitive substring containment. -/
theorem C7_list_projects_filters (db : DB) (q tag : Option String)
    (hq : ∀ s, q = some s → modelledPattern s = true) :
    (∀ po, po ∈ list_projects db q tag ↔
      ∃ p, p ∈ db.projects ∧ po = toProjectOut p ∧ p.visibility = "public" ∧
        (∀ s, q = some s → s ≠ "" → projMatchesQ s p = true) ∧
        (∀ t, tag = some t → t ≠ "" → p.tags.contains t = true)) ∧
    (list_projects db q tag).Pairwise
      (fun a b : ProjectOut => b.created_at ≤ a.created_at) ∧
    (∀ (s : String) (p : ProjectRec), modelledPattern s = true → '.' ∉ s.data →
      (projMatchesQ s p = true ↔
        (containsCI s.data p.title.data = true ∨
          containsCI s.data p.description.data = true ∨
          ∃ t ∈ p.tags, containsCI s.data t.data = true))) := by
  refine ⟨?_, ?_, ?_⟩
  · intro po
    constructor
    · intro hpo
      simp only [list_projects, List.mem_map] at hpo
      obtain ⟨p, hp, hpo'⟩ := hpo
      rw [(List.perm_insertionSort newestFirst _).mem_iff, List.mem_filter] at hp
      obtain ⟨hmem, hpred⟩ := hp
      simp only [Bool.and_eq_true, beq_iff_eq] at hpred
      exact ⟨p, hmem, hpo'.symm, hpred.1.1,
        (qFilter_eq_true_iff q p).1 hpred.1.2,
        (tagFilter_eq_true_iff tag p).1 hpred.2⟩
    · intro hex
      obtain ⟨p, hmem, hpo, hvis, hq, ht⟩ := hex
      simp only [list_projects, List.mem_map]
      refine ⟨p, ?_, hpo.symm⟩
      rw [(List.perm_insertionSort newestFirst _).mem_iff, List.mem_filter]
      refine ⟨hmem, ?_⟩
      simp only [Bool.and_eq_true, beq_iff_eq]
      exact ⟨⟨hvis, (qFilter_eq_true_iff q p).2 hq⟩, (tagFilter_eq_true_iff tag p).2 ht⟩
  · have hsorted := List.sorted_insertionSort newestFirst
      (db.projects.filter (fun p => p.visibility == "public" && qFilter q p && tagFilter tag p))
    exact List.pairwise_map.2 hsorted
  · intro s p hfrag hdotfree
    simp only [projMatchesQ, reSearch_eq_containsCI s.data hdotfree,
      Bool.or_eq_true, List.any_eq_true]
    exact or_assoc

/-- Witness for C7's filter characterization at concrete inputs: searching
the example store for `lean` with tag `lean` returns exactly the public
sample project. -/
theorem C7_list_projects_filters_witness :
    toProjectOut exProject ∈ list_projects exDbPriv (some "lean") (some "lean") ∧
    ¬ toProjectOut exPrivate ∈ list_projects exDbPriv none none ∧
    projMatchesQ "lean" exProject = true := by
  have h := (C7_list_projects_filters exDbPriv (some "lean") (some "lean")
    (fun s hs => by cases hs; decide)).1 (toProjectOut exProject)
  have hpriv := (C7_list_projects_filters exDbPriv none none
    (fun s hs => nomatch hs)).1 (toProjectOut exPrivate)
  refine ⟨?_, ?_, by decide⟩
  · exact h.2 ⟨exProject, by decide, rfl, by decide,
      fun s hs hne => by cases hs; decide, fun t ht hne => by cases ht; decide⟩
  · intro hmem
    obtain ⟨p, hp, heq, hvis, _, _⟩ := hpriv.1 hmem
    have : p = exProject ∨ p = exPrivate := by
      rcases List.mem_cons.1 hp with h | h
      · exact Or.inl h
      · exact Or.inr (by simpa using h)
    rcases this with rfl | rfl
    · exact absurd heq (by decide)
    · exact absurd hvis (by decide)

def cexProjQ : ProjectRec :=
  { id := oidB, owner_id := oidA, title := "axb", description := ""
    skills_required := [], expected_contribution := none, duration := none
    tags := [], visibility := "public", created_at := 0, updated_at := none }

def cexDbQ : DB := { users := [], projects := [cexProjQ], saved := [], collabs := [] }

/-- Counterexample to C7 as stated: for the query `a.b` the code returns
the project titled `axb` (the `$regex` filter treats `.` as a wildcard),
yet neither the title, nor the description, nor any tag contains `a.b` as a
case-insensitive substring. -/
theorem C7_list_projects_counterexample :
    list_projects cexDbQ (some "a.b") none = [toProjectOut cexProjQ] ∧
    containsCI "a.b".data cexProjQ.title.data = false ∧
    containsCI "a.b".data cexProjQ.description.data = false ∧
    cexProjQ.tags = [] := by decide

/-! ## C8 -/

/-- Number of stored saved-project records for a `(user, project_id)`
pair. -/
def countSaved (db : DB) (uid pid : String) : Nat :=
  (db.saved.filter (savedPred uid pid)).length

/-- C8: for any project-id string whatever (no existence check is run —
the result does not depend on the projects collection at all), saving twice
in sequence reports success both times, the second call changes nothing,
and exactly one saved record for the pair remains.  The hypothesis reflects
the states the code can reach: the guarded insert never creates a second
record for the same pair. -/
theorem C8_save_project_idempotent (db : DB) (project_id : String)
    (user : AuthUser) (t1 t2 : Int)
    (hc : countSaved db user.id project_id ≤ 1) :
    (save_project db project_id user t1).2 = true ∧
    (save_project (save_project db project_id user t1).1 project_id user t2).2 = true ∧
    (save_project (save_project db project_id user t1).1 project_id user t2).1 =
      (save_project db project_id user t1).1 ∧
    countSaved (save_project db project_id user t1).1 user.id project_id = 1 ∧
    (∀ ps : List ProjectRec,
      (save_project { db with projects := ps } project_id user t1).1.saved =
        (save_project db project_id user t1).1.saved ∧
      (save_project { db with projects := ps } project_id user t1).2 =
        (save_project db project_id user t1).2) := by
  cases hf : db.saved.find? (savedPred user.id project_id) with
  | some s =>
    have hmem : s ∈ db.saved := List.mem_of_find?_eq_some hf
    have hpred : savedPred user.id project_id s = true := List.find?_some hf
    have hpos : 0 < countSaved db user.id project_id := by
      have : s ∈ db.saved.filter (savedPred user.id project_id) :=
        List.mem_filter.2 ⟨hmem, hpred⟩
      exact List.length_pos.2 (List.ne_nil_of_mem this)
    refine ⟨by simp [save_project, hf], ?_, ?_, ?_, ?_⟩
    · simp [save_project, hf]
    · simp [save_project, hf]
    · simp only [save_project, hf]
      omega
    · intro ps
      constructor <;> simp [save_project, hf]
  | none =>
    have hzero : db.saved.filter (savedPred user.id project_id) = [] :=
      List.filter_eq_nil_iff.2 (fun s hs => by simp [find?_eq_none_iff.1 hf s hs])
    have hnewpred : savedPred user.id project_id ⟨user.id, project_id, t1⟩ = true := by
      simp [savedPred]
    have hcount1 : countSaved { db with saved := db.saved ++ [⟨user.id, project_id, t1⟩] }
        user.id project_id = 1 := by
      simp [countSaved, List.filter_append, hzero, hnewpred]
    cases hf2 : (db.saved ++ [(⟨user.id, project_id, t1⟩ : SavedRec)]).find?
        (savedPred user.id project_id) with
    | none =>
      exfalso
      have := find?_eq_none_iff.1 hf2 ⟨user.id, project_id, t1⟩
        (List.mem_append_right _ (List.mem_singleton.2 rfl))
      rw [hnewpred] at this
      cases this
    | some s2 =>
      refine ⟨by simp [save_project, hf], ?_, ?_, ?_, ?_⟩
      · simp [save_project, hf, hf2]
      · simp [save_project, hf, hf2]
      · simpa [save_project, hf] using hcount1
      · intro ps
        constructor <;> simp [save_project, hf]

/-- Witness for C8: double-saving the non-ObjectId string `not-a-real-id`
(no project with that id exists, and none could) succeeds twice and leaves
exactly one record. -/
theorem C8_save_project_idempotent_witness :
    (save_project exDb "not-a-real-id" exAuthAlice 1).2 = true ∧
    countSaved (save_project exDb "not-a-real-id" exAuthAlice 1).1
      oidA "not-a-real-id" = 1 ∧
    (save_project (save_project exDb "not-a-real-id" exAuthAlice 1).1
        "not-a-real-id" exAuthAlice 2).1 =
      (save_project exDb "not-a-real-id" exAuthAlice 1).1 := by
  have h := C8_save_project_idempotent exDb "not-a-real-id" exAuthAlice 1 2 (by decide)
  exact ⟨h.1, h.2.2.2.1, h.2.2.1⟩

/-! ## C9 -/

/-- C9 (amended): `GET /me/saved` returns exactly the stored projects
referenced by the requester's saved records — references to no-longer
existing projects are silently dropped — *provided* every saved
`project_id` of the requester is a well-formed ObjectId string; a saved
record holding a malformed id string (which `save_project` accepts) makes
the eager `ObjectId(...)` conversion raise, so the endpoint fails instead
of succeeding. -/
theorem C9_my_saved_resolution (db : DB) (user : AuthUser) :
    ((∀ s ∈ db.saved, s.user_id = user.id → isValidOid s.project_id = true) →
      ∃ l, my_saved db user = .ok l ∧
        ∀ po, po ∈ l ↔ ∃ p, p ∈ db.projects ∧ po = toProjectOut p ∧
          ∃ s ∈ db.saved, s.user_id = user.id ∧ s.project_id = p.id) ∧
    (∀ s ∈ db.saved, s.user_id = user.id → isValidOid s.project_id = false →
      my_saved db user = .error (.serverError "InvalidId")) := by
  constructor
  · intro hall
    have hallb : (db.saved.filter (fun s => s.user_id == user.id)).all
        (fun s => isValidOid s.project_id) = true := by
      rw [List.all_eq_true]
      intro s hs
      have := List.mem_filter.1 hs
      exact hall s this.1 (by simpa using this.2)
    have hok : my_saved db user = .ok ((db.projects.filter (fun p =>
        ((db.saved.filter (fun s => s.user_id == user.id)).map
          (fun s => s.project_id)).contains p.id)).map toProjectOut) := by
      simp only [my_saved]
      rw [if_pos hallb]
    refine ⟨_, hok, ?_⟩
    intro po
    simp only [List.mem_map, List.mem_filter]
    constructor
    · intro hpo
      obtain ⟨p, ⟨hp, hcont⟩, hout⟩ := hpo
      refine ⟨p, hp, hout.symm, ?_⟩
      have hid : p.id ∈ (db.saved.filter (fun s => s.user_id == user.id)).map
          (fun s => s.project_id) := by
        simpa using hcont
      obtain ⟨s, hs, hsid⟩ := List.mem_map.1 hid
      have hs' := List.mem_filter.1 hs
      exact ⟨s, hs'.1, by simpa using hs'.2, hsid⟩
    · intro hex
      obtain ⟨p, hp, hout, s, hs, hsu, hsid⟩ := hex
      refine ⟨p, ⟨hp, ?_⟩, hout.symm⟩
      have : p.id ∈ (db.saved.filter (fun x => x.user_id == user.id)).map
          (fun x => x.project_id) := by
        exact List.mem_map.2 ⟨s, List.mem_filter.2 ⟨hs, by simp [hsu]⟩, hsid⟩
      simpa using this
  · intro s hs hsu hbad
    have : (db.saved.filter (fun x => x.user_id == user.id)).all
        (fun x => isValidOid x.project_id) = false := by
      rw [Bool.eq_false_iff]
      intro hall
      have := List.all_eq_true.1 hall s (List.mem_filter.2 ⟨hs, by simp [hsu]⟩)
      rw [hbad] at this
      cases this
    simp [my_saved, this]

/-- Witness for C9's amended statement: with one well-formed but dangling
saved reference the endpoint succeeds and returns the empty list. -/
theorem C9_my_saved_resolution_witness :
    my_saved { users := [exAlice], projects := [], saved := [⟨oidA, oidB, 0⟩]
               collabs := [] } exAuthAlice = .ok [] := by
  have h := (C9_my_saved_resolution
    { users := [exAlice], projects := [], saved := [⟨oidA, oidB, 0⟩], collabs := [] }
    exAuthAlice).1 (by decide)
  obtain ⟨l, hok, hmem⟩ := h
  cases l with
  | nil => exact hok
  | cons po l' =>
    exfalso
    obtain ⟨p, hp, _, _⟩ := (hmem po).1 (List.mem_cons_self po l')
    cases hp

def cexDbSaved : DB :=
  { users := [exAlice], projects := [], saved := [⟨oidA, "not-an-objectid", 0⟩]
    collabs := [] }

/-- Counterexample to C9 as stated: `save_project` accepts the string
`not-an-objectid`, after which `GET /me/saved` does not succeed — the
eager `ObjectId` conversion raises and the request fails — instead of
silently dropping the unresolvable reference. -/
theorem C9_my_saved_counterexample :
    (save_project { users := [exAlice], projects := [], saved := [], collabs := [] }
        "not-an-objectid" exAuthAlice 0).1 = cexDbSaved ∧
    (save_project { users := [exAlice], projects := [], saved := [], collabs := [] }
        "not-an-objectid" exAuthAlice 0).2 = true ∧
    my_saved cexDbSaved exAuthAlice = .error (.serverError "InvalidId") := by decide

/-! ## C10 -/

/-- C10: `POST /me` can modify only the user's stored `name`: with an
absent name nothing changes at all, and with a present name the user's
record is replaced by one identical except for `name` (email,
password_hash, provider, created_at unchanged; all other users and the
other collections untouched); the response reflects the stored record
after the update. -/
theorem C10_update_me_frame (db : DB) (user : AuthUser) (payload : ProfileUpdate)
    (u : UserRec) (hid : isValidOid user.id = true)
    (hu : db.users.find? (fun x => x.id == user.id) = some u) :
    (payload.name = none →
      update_me db user payload =
        (db, .ok { id := user.id, email := u.email, name := u.name })) ∧
    (∀ n, payload.name = some n →
      ∃ l1 l2, db.users = l1 ++ u :: l2 ∧
        (∀ w ∈ l1, (w.id == user.id) = false) ∧
        update_me db user payload =
          ({ db with users := l1 ++ { u with name := n } :: l2 },
            .ok { id := user.id, email := u.email, name := n }) ∧
        { u with name := n }.email = u.email ∧
        { u with name := n }.password_hash = u.password_hash ∧
        { u with name := n }.provider = u.provider ∧
        { u with name := n }.created_at = u.created_at) := by
  constructor
  · intro hn
    simp [update_me, hid, hn, hu]
  · intro n hn
    obtain ⟨l1, l2, hdec, hnone, hupd⟩ :=
      updateFirst_decomp (fun x : UserRec => x.id == user.id)
        (fun x => { x with name := n }) hu
    have hid2 : u.id = user.id := by
      have := List.find?_some hu
      simpa using this
    have hpu : (({ u with name := n } : UserRec).id == user.id) = true := by
      simp only [hid2.symm]
      simp [hid2]
    have hfind2 : (l1 ++ ({ u with name := n } : UserRec) :: l2).find?
        (fun x => x.id == user.id) = some { u with name := n } :=
      find?_middle hnone hpu
    refine ⟨l1, l2, hdec, hnone, ?_, rfl, rfl, rfl, rfl⟩
    simp [update_me, hid, hn, hupd, hfind2]

/-- Witness for C10: updating with an absent name returns the stored
profile unchanged; updating the name yields a response with the new name
and the stored email. -/
theorem C10_update_me_frame_witness :
    update_me exDb exAuthAlice { name := none } =
      (exDb, .ok { id := oidA, email := "alice@example.com", name := "Alice" }) ∧
    (update_me exDb exAuthAlice { name := some "Alicia" }).2 =
      .ok { id := oidA, email := "alice@example.com", name := "Alicia" } := by
  have h := C10_update_me_frame exDb exAuthAlice { name := none } exAlice
    (by decide) (by decide)
  have h2 := C10_update_me_frame exDb exAuthAlice { name := some "Alicia" } exAlice
    (by decide) (by decide)
  refine ⟨h.1 rfl, ?_⟩
  obtain ⟨l1, l2, _, _, heq, _⟩ := h2.2 "Alicia" rfl
  exact congrArg Prod.snd heq

end CollabLab
